import Mathlib

/-!
Verification of the markitdown embedded-media resolution pipeline
(`_docx_converter.py`, `_pptx_converter.py`) against its specification.

The Python source is shallowly embedded: pure helper functions become Lean
functions on `String`/`List Char`/`List Nat` (text that is handled as raw
bytes — base64 payloads, image contents, LLM responses — is modelled as its
UTF-8 byte sequence, a `List Nat` of values < 256); external effects
(the ImageMagick subprocess, the LLM chat completion, file readability) are
modelled as explicit inputs describing their observable outcome; the
writer's mutable state (`ocr_cache`, counters, statistics) is threaded
explicitly.
-/

set_option maxHeartbeats 1000000

namespace Markitdown

/-- Python `str.lower()`; on the ASCII strings involved here this is the
character-wise lowering. -/
def strLower (s : String) : String := ⟨s.data.map Char.toLower⟩

/-- Python's substring test `needle in hay` on character lists. -/
def containsSub (hay needle : List Char) : Bool :=
  if needle.isPrefixOf hay then true
  else
    match hay with
    | [] => false
    | _ :: t => containsSub t needle

/-! ### Content Classifier (`DocxImageWriterWith_llm._is_likely_formula`, lines 232-263)

The classifier receives the saved file's path and the declared content type.
It inspects only the path's extension (`filepath.suffix.lower()`), the
content type string, and the file's `stat` size (which may be unobtainable,
in which case the `except` clause skips the size rule).  We embed it as a
function of those three observables. -/

/-- Rule 2 of `_is_likely_formula`: `if content_type:` followed by the two
substring tests.  `none` and the empty string are both falsy in Python. -/
def ctMentionsVector (contentType : Option String) : Bool :=
  match contentType with
  | none => false
  | some c => containsSub (strLower c).data "wmf".data || containsSub (strLower c).data "emf".data

/-- Embeds `_is_likely_formula(filepath, content_type)`.
`suffix` is `filepath.suffix` (the extension including the dot), `statSize`
is `filepath.stat().st_size` when the stat call succeeds and `none` when it
raises (the source swallows the exception and falls through).
Rule 1 tests membership in the one-element list `['.wmf']`; rule 3 returns
`False` for sizes over 100 KiB; the default is `False`. -/
def is_likely_formula (suffix : String) (contentType : Option String)
    (statSize : Option Nat) : Bool :=
  if strLower suffix = ".wmf" then true
  else if ctMentionsVector contentType then true
  else
    match statSize with
    | some sz => if sz > 100 * 1024 then false else false
    | none => false

/-! ### Format Transcoder (`DocxImageWriterWith_llm._convert_to_png_if_needed`, lines 265-324) -/

/-- Observable outcome of the `subprocess.run(['magick', ...])` invocation. -/
inductive ProcOutcome where
  /-- Case `FileNotFoundError`: the `magick` binary is not on the PATH. -/
  | procMissing
  /-- Case `subprocess.TimeoutExpired` after the 30-second bound. -/
  | timedOut
  /-- any other exception raised while invoking the process. -/
  | otherError
  /-- the process completed with this return code; `outputExists` records
  whether the output file exists afterwards. -/
  | completed (returncode : Int) (outputExists : Bool)
deriving DecidableEq, Repr

/-- the suffix test `filepath.suffix.lower() not in ['.wmf', '.emf']` (negated). -/
def legacyVectorSuffix (suffix : String) : Bool :=
  strLower suffix = ".wmf" || strLower suffix = ".emf"

/-- Embeds `_convert_to_png_if_needed(filepath)`.  `path` is `str(filepath)`,
`suffix` its extension, `tempPng` the fresh `tempfile.mktemp` name that the
conversion would produce, and `proc` the outcome of the external process.
Returns the path the caller should use from here on. -/
def convert_to_png_if_needed (path : String) (suffix : String) (tempPng : String)
    (proc : ProcOutcome) : String :=
  if ¬ legacyVectorSuffix suffix then path
  else
    match proc with
    | .completed rc outExists => if rc = 0 ∧ outExists = true then tempPng else path
    | _ => path


/-! ### Frame Extractor (`split_and_merge_gif`, _pptx_converter.py lines 27-82) -/

/-- One raster frame after `convert('RGBA')`: a row-major grid of pixels
(pixel values abstracted to `Nat`). -/
structure Frame where
  rows : List (List Nat)
deriving DecidableEq, Repr

/-- Source line 57: `middle_index = (frame_count // 2) - 1 if frame_count % 2 == 0 else frame_count // 2` -/
def middle_index (frameCount : Nat) : Nat :=
  if frameCount % 2 = 0 then frameCount / 2 - 1 else frameCount / 2

/-- Pasting three equal-sized frames side by side onto the
`Image.new('RGBA', (width * 3, height))` canvas at x-offsets 0, `width`,
`2 * width`: each output row is the concatenation of the three input
rows. -/
def mergeFrames (f0 f1 f2 : Frame) : Frame :=
  ⟨List.zipWith (fun r01 r2 => r01 ++ r2)
     (List.zipWith (fun r0 r1 => r0 ++ r1) f0.rows f1.rows) f2.rows⟩

/-- Embeds `split_and_merge_gif(input_gif, output_png)`.  `pil` records whether PIL
imports (the function returns `None` otherwise); `frames` are the GIF's
frames in temporal order, so `frame_count = frames.length` (an opened GIF
has at least one frame; the empty case is modelled as an error).  Returns
the merged output frame together with the three selected frame indices
`(0, middle_index, frame_count - 1)`. -/
def split_and_merge_gif (pil : Bool) (frames : List Frame) :
    Option (Frame × Nat × Nat × Nat) :=
  if ¬ pil then none
  else
    match frames with
    | [] => none
    | f :: _ =>
      let n := frames.length
      let mid := middle_index n
      some (mergeFrames (frames.getD 0 f) (frames.getD mid f) (frames.getD (n - 1) f),
            0, mid, n - 1)

/-- concrete 5-frame input (frames 1 pixel high, 2 pixels wide). -/
def gif5 : List Frame := [⟨[[0, 0]]⟩, ⟨[[1, 1]]⟩, ⟨[[2, 2]]⟩, ⟨[[3, 3]]⟩, ⟨[[4, 4]]⟩]

/-- concrete 4-frame input (frames 1 pixel high, 2 pixels wide). -/
def gif4 : List Frame := [⟨[[0, 0]]⟩, ⟨[[1, 1]]⟩, ⟨[[2, 2]]⟩, ⟨[[3, 3]]⟩]


/-! ### Placeholder Resolver, balanced-content markers
(`replace_latex_formula` and its `re.sub` pass, _docx_converter.py lines 624-656) -/

/-- The opening sequence matched by the pattern `!\[\]\(LATEX_FORMULA:`. -/
def latexMarkerOpen : List Char := "![](LATEX_FORMULA:".data

/-- The `while pos < len(text) and depth > 0:` loop of
`replace_latex_formula`: the number of characters consumed from `suffix`
(the text after the opening sequence) until the parenthesis depth returns
to 0, starting from the given depth. -/
def scanFormulaLen : List Char → Nat → Nat
  | [], _ => 0
  | c :: rest, depth =>
      if depth = 0 then 0
      else
        let d2 := if c = '(' then depth + 1 else if c = ')' then depth - 1 else depth
        if d2 = 0 then 1 else 1 + scanFormulaLen rest d2

/-- Embeds `replace_latex_formula(match_obj)`: the replacement string computed for a
match whose end is at the start of `suffix` — `text[start:pos-1]`, i.e. the
consumed characters except the final one. -/
def replace_latex_formula (suffix : List Char) : List Char :=
  suffix.take (scanFormulaLen suffix 1 - 1)

/-- Split `text` at the first occurrence of the opening sequence: the text
before the match and the text after it (`re.sub` match scanning). -/
def splitAtLatexMarker : List Char → Option (List Char × List Char)
  | [] => none
  | c :: rest =>
      if latexMarkerOpen.isPrefixOf (c :: rest) then
        some ([], (c :: rest).drop latexMarkerOpen.length)
      else
        match splitAtLatexMarker rest with
        | some (p, s) => some (c :: p, s)
        | none => none

/-- The post-processing pass
`re.sub(pattern, lambda m: replace_latex_formula(m), text_content)` for the
balanced-content markers: `re.sub` substitutes the replacement string for
the matched span only — the 18-character opening sequence — and resumes
scanning immediately after the match.  `fuel` bounds the number of matches;
`text.length` always suffices since every match consumes 18 characters. -/
def resolveLatexAux : Nat → List Char → List Char
  | 0, text => text
  | fuel + 1, text =>
      match splitAtLatexMarker text with
      | none => text
      | some (p, s) => p ++ replace_latex_formula s ++ resolveLatexAux fuel s

/-- The whole pass over an assembled document text. -/
def resolveLatexMarkers (text : List Char) : List Char :=
  resolveLatexAux text.length text


/-! ### Placeholder Resolver, encoded-content markers
(`decode_omml_placeholder`, _docx_converter.py lines 586-616)

The marker payloads are raw data, modelled as UTF-8 byte sequences
(`List Nat`, values < 256).  The final `.decode('utf-8')` step of the
source, which reinterprets the decoded bytes as text, is the identity on
this representation. -/

/-- The ASCII whitespace bytes removed by `str.strip()`. -/
def wsByte (b : Nat) : Bool :=
  b = 32 || b = 9 || b = 10 || b = 13 || b = 11 || b = 12

/-- Python's `str.strip()`: remove leading and trailing whitespace. -/
def pyStrip (l : List Nat) : List Nat :=
  ((l.dropWhile wsByte).reverse.dropWhile wsByte).reverse

/-- Writer configuration relevant to recognition. -/
structure OcrConfig where
  /-- both `llm_client` and `llm_model` are configured. -/
  hasClient : Bool
  /-- Flag `cache_ocr_results` (constructor default `True`). -/
  cacheEnabled : Bool
  /-- the content digest `hashlib.md5(file bytes).hexdigest()`. -/
  md5 : List Nat → List Nat

/-- One media object as `_recognize_formula(image_path)` observes it. -/
structure Submission where
  /-- the raw bytes of the saved (pre-transcode) file at `image_path`. -/
  origBytes : List Nat
  /-- whether `_get_image_hash` can open and read `image_path` (its
  `except` clause returns `None` otherwise). -/
  hashReadable : Bool
  /-- whether `image_path` has a `.wmf`/`.emf` suffix, so that
  `_convert_to_png_if_needed` attempts a conversion. -/
  needsConv : Bool
  /-- the bytes of the PNG produced by a successful conversion, `none` when
  the conversion failed and the original path was kept. -/
  convResult : Option (List Nat)
  /-- whether `open(png_path, 'rb')` succeeds in the recognition step. -/
  sendReadable : Bool

/-- The bytes of the file at the path `_convert_to_png_if_needed` returns. -/
def postConvBytes (sub : Submission) : List Nat :=
  if sub.needsConv then sub.convResult.getD sub.origBytes else sub.origBytes

/-- The `stats` dictionary and `ocr_cache` of one writer, plus the number of
client calls made so far. -/
structure OcrState where
  cache : List (List Nat × List Nat)
  calls : Nat
  totalImages : Nat
  formulaDetected : Nat
  okCount : Nat
  failCount : Nat
  cachedCount : Nat
deriving DecidableEq, Repr

/-- The writer state at construction time (per document). -/
def initOcrState : OcrState := ⟨[], 0, 0, 0, 0, 0, 0⟩

/-- Lookup in the modelled `ocr_cache` dictionary (newest entry first, so
that insertion shadows any older binding, as a `dict` assignment does). -/
def lookupCache : List (List Nat × List Nat) → List Nat → Option (List Nat)
  | [], _ => none
  | (k2, v) :: rest, k => if k2 = k then some v else lookupCache rest k

/-- Observable outcome of one `_recognize_formula` call. -/
structure RecogStep where
  /-- the returned LaTeX string, `None` on failure. -/
  latexOut : Option (List Nat)
  state : OcrState
  /-- the digest used as the cache key, when one was computed. -/
  usedKey : Option (List Nat)
  /-- the bytes that digest was computed from. -/
  hashedBytes : Option (List Nat)
  /-- the bytes base64-embedded into the client request, when a client call
  actually happened. -/
  sentBytes : Option (List Nat)

/-- The part of `_recognize_formula` after a cache miss: convert if needed
(line 361), read the PNG and call the LLM (lines 368-397), strip the
response, and store a non-empty result in the cache when a key is at hand
(lines 399-419). -/
def recogClientCall (client : Nat → Option (List Nat))
    (st : OcrState) (sub : Submission) (keyUsed : Option (List Nat))
    (hashedFrom : Option (List Nat)) : RecogStep :=
  let png := postConvBytes sub
  if ¬ sub.sendReadable then
    ⟨none, { st with failCount := st.failCount + 1 }, keyUsed, hashedFrom, none⟩
  else
    match client st.calls with
    | none =>
        ⟨none, { st with calls := st.calls + 1, failCount := st.failCount + 1 },
          keyUsed, hashedFrom, some png⟩
    | some resp =>
        if pyStrip resp ≠ [] then
          let cache2 := match keyUsed with
            | some k => (k, pyStrip resp) :: st.cache
            | none => st.cache
          ⟨some (pyStrip resp),
            { st with calls := st.calls + 1, okCount := st.okCount + 1, cache := cache2 },
            keyUsed, hashedFrom, some png⟩
        else
          ⟨none, { st with calls := st.calls + 1, failCount := st.failCount + 1 },
            keyUsed, hashedFrom, some png⟩

/-- Embeds `_recognize_formula(image_path)`: bail out without a client (lines
345-349); with caching enabled compute the digest of the file at
`image_path` — the pre-transcode asset — and return any cached result
(lines 351-357); otherwise convert and call the client. -/
def _recognize_formula (cfg : OcrConfig) (client : Nat → Option (List Nat))
    (st : OcrState) (sub : Submission) : RecogStep :=
  if ¬ cfg.hasClient then
    ⟨none, { st with failCount := st.failCount + 1 }, none, none, none⟩
  else if cfg.cacheEnabled ∧ sub.hashReadable then
    match lookupCache st.cache (cfg.md5 sub.origBytes) with
    | some v =>
        ⟨some v, { st with cachedCount := st.cachedCount + 1 },
          some (cfg.md5 sub.origBytes), some sub.origBytes, none⟩
    | none =>
        recogClientCall client st sub (some (cfg.md5 sub.origBytes))
          (some sub.origBytes)
  else recogClientCall client st sub none none

/-- Source line 438: `image.content_type or "image/png"`. -/
def effContentType (ct : Option String) : String :=
  match ct with
  | some c => if c = "" then "image/png" else c
  | none => "image/png"

/-- The marker tag `"LATEX_FORMULA:"` as bytes. -/
def latexSrcTag : List Nat := "LATEX_FORMULA:".data.map Char.toNat

/-- Input to `DocxImageWriterWith_llm.__call__` beyond the recognition
submission: the outcome of the base-writer save `super().__call__(image)`. -/
structure MediaIn where
  /-- Value `result["src"]` as returned by `DocxImageWriter.__call__`, as bytes. -/
  savedSrc : List Nat
  /-- Value `Path(result["src"]).suffix`. -/
  savedSuffix : String
  /-- Value `image.content_type` (possibly absent or empty). -/
  contentType : Option String
  /-- Value `filepath.stat().st_size`, when the stat call succeeds. -/
  statSize : Option Nat
  /-- the recognition-step observables for this file. -/
  sub : Submission

/-- Embeds `DocxImageWriterWith_llm.__call__(image)` (lines 421-459): count the
image, return the saved reference unless OCR is on and the image classifies
as a formula; otherwise attempt recognition, emitting the
`LATEX_FORMULA:` marker on success and the saved reference on failure. -/
def writerCallWithLlm (cfg : OcrConfig) (ocrFormulas : Bool)
    (client : Nat → Option (List Nat)) (st : OcrState) (m : MediaIn) :
    List Nat × OcrState :=
  let st0 := { st with totalImages := st.totalImages + 1 }
  if ¬ ocrFormulas then (m.savedSrc, st0)
  else if ¬ is_likely_formula m.savedSuffix (some (effContentType m.contentType)) m.statSize then
    (m.savedSrc, st0)
  else
    let st1 := { st0 with formulaDetected := st0.formulaDetected + 1 }
    let r := _recognize_formula cfg client st1 m.sub
    match r.latexOut with
    | some latex => (latexSrcTag ++ latex, r.state)
    | none => (m.savedSrc, r.state)

/-- A document's sequence of `_recognize_formula` submissions, threading the
writer state (the per-document cache starts empty). -/
def runRecognitions (cfg : OcrConfig) (client : Nat → Option (List Nat)) :
    OcrState → List Submission → OcrState
  | st, [] => st
  | st, sub :: rest =>
      runRecognitions cfg client (_recognize_formula cfg client st sub).state rest

/-- A document's submission sequence paired with each step's observable
outcome, threading the writer state left to right. -/
def runTrace (cfg : OcrConfig) (client : Nat → Option (List Nat)) :
    OcrState → List Submission → List (Submission × RecogStep)
  | _, [] => []
  | st, sub :: rest =>
      let r := _recognize_formula cfg client st sub
      (sub, r) :: runTrace cfg client r.state rest

/-- A step that submitted content `b` and obtained a successful recognition
from an actual client call: a request was built (`sentBytes` present) and
the result is a success.  Cache hits build no request and count as no
call. -/
def successfulCallFor (b : List Nat) (p : Submission × RecogStep) : Bool :=
  p.1.origBytes == b && p.2.sentBytes.isSome && p.2.latexOut.isSome

/-- An injective stand-in digest function for concrete model instances. -/
def idDigest : List Nat → List Nat := fun bs => bs

/-- Configuration with a client and caching enabled. -/
def cexCfg : OcrConfig := ⟨true, true, idDigest⟩

/-- A client whose responses are a single space — empty after stripping, so
every call fails with an empty response. -/
def blankClient : Nat → Option (List Nat) := fun _ => some [32]

/-- A plain readable submission (a small PNG, no conversion needed). -/
def subA : Submission := ⟨[1, 2, 3], true, false, none, true⟩

/-- A WMF submission whose conversion succeeds and changes the bytes
(original file bytes `[0]`, converted PNG bytes `[1, 2]`). -/
def subConv : Submission := ⟨[0], true, true, some [1, 2], true⟩

/-- A client answering `"x"` (byte 120) to every request. -/
def oneClient : Nat → Option (List Nat) := fun _ => some [120]

/-- A client answering `" a "` to every request. -/
def spacedClient : Nat → Option (List Nat) := fun _ => some [32, 97, 32]

/-- Configuration with caching enabled but no client. -/
def noClientCfg : OcrConfig := ⟨false, true, idDigest⟩

/-- A concrete formula-classified media object for the C8 witness. -/
def mediaWmf : MediaIn := ⟨[5, 5], ".wmf", some "image/x-wmf", some 10, subA⟩

/-- The stored-value invariant of the recognition cache: every stored value
is a non-empty byte string fixed by stripping (no leading or trailing
whitespace). -/
def cacheValuesOk (st : OcrState) : Prop :=
  ∀ kv ∈ st.cache, kv.2 ≠ [] ∧ pyStrip kv.2 = kv.2


/-! ### Media Writer naming (`DocxImageWriter.__call__`, _docx_converter.py
lines 65-169)

The writer assigns `image_{counter:03d}{extension}` names from a
writer-local counter incremented once per processed image.  The stdlib
table `mimetypes.guess_extension` is a parameter `guessExt` of the model.
File names are `List Char`; all files go into one output directory, so path
uniqueness is name uniqueness. -/

/-- Decimal digit characters of `n`, most significant first (`fuel`-driven;
`fuel = n` always suffices); empty for `n = 0`. -/
def decCharsAux : Nat → Nat → List Char
  | 0, _ => []
  | fuel + 1, n =>
      if n = 0 then [] else decCharsAux fuel (n / 10) ++ [Nat.digitChar (n % 10)]

/-- Decimal digit characters of `n`, most significant first. -/
def decChars (n : Nat) : List Char := decCharsAux n n

/-- Python's `f"{n:03d}"`: the decimal digits of `n` zero-padded on the left
to at least width 3. -/
def pad3 (n : Nat) : List Char :=
  List.replicate (3 - (decChars n).length) '0' ++ decChars n

/-- Parse a digit string, most significant first. -/
def valChars (l : List Char) : Nat :=
  l.foldl (fun a c => a * 10 + (c.toNat - 48)) 0

/-- One mammoth image object as the plain writer observes it. -/
structure DocxImage where
  /-- Value `image.content_type` (`None` or empty possible). -/
  contentType : Option String
  /-- the embedded bytes. -/
  bytes : List Nat
deriving DecidableEq, Repr

/-- Python's `mimetypes.guess_extension(content_type)` followed by the
`if not extension: extension = '.png'` default. -/
def effExt (guessExt : String → Option String) (ct : String) : String :=
  match guessExt ct with
  | some e => if e = "" then ".png" else e
  | none => ".png"

/-- Source lines 101-103: `extension.lower() in ['.wmf', '.emf'] or 'wmf' in content_type.lower()
or 'emf' in content_type.lower()`. -/
def isWmfEmf (ext : String) (ct : String) : Bool :=
  strLower ext = ".wmf" || strLower ext = ".emf" ||
    containsSub (strLower ct).data "wmf".data || containsSub (strLower ct).data "emf".data

/-- Name `f"image_{counter:03d}" + tail` where `tail` is the extension part. -/
def imageName (counter : Nat) (tail : List Char) : List Char :=
  "image_".data ++ pad3 counter ++ tail

/-- Result of one `DocxImageWriter.__call__`: the file name put into the
returned `src`, every file created on disk during the call (in order:
for WMF/EMF with successful conversion, the temporary original — later
unlinked — and the ImageMagick output), and the updated counter. -/
structure WriterStep where
  filename : List Char
  written : List (List Char)
  newCounter : Nat
deriving DecidableEq, Repr

/-- Embeds `DocxImageWriter.__call__(image)` (lines 82-169): resolve the content
type and extension, increment the counter, and either save directly or
(WMF/EMF) save the original under the resolved extension and convert it to
`image_{counter:03d}.png`, keeping the original name on failure. -/
def docxWriterCall (guessExt : String → Option String) (counter : Nat)
    (img : DocxImage) (magick : ProcOutcome) : WriterStep :=
  let ct := effContentType img.contentType
  let ext := effExt guessExt ct
  let c2 := counter + 1
  if isWmfEmf ext ct then
    let tempName := imageName c2 ext.data
    let pngName := imageName c2 ".png".data
    match magick with
    | .completed rc outExists =>
        if rc = 0 ∧ outExists = true then ⟨pngName, [tempName, pngName], c2⟩
        else ⟨tempName, [tempName], c2⟩
    | _ => ⟨tempName, [tempName], c2⟩
  else
    ⟨imageName c2 ext.data, [imageName c2 ext.data], c2⟩

/-- One document's image sequence through the writer, pairing the counter
value assigned to each image with the step outcome. -/
def docxWriterRun (guessExt : String → Option String) :
    Nat → List (DocxImage × ProcOutcome) → List (Nat × WriterStep)
  | _, [] => []
  | counter, (img, mg) :: rest =>
      let s := docxWriterCall guessExt counter img mg
      (s.newCounter, s) :: docxWriterRun guessExt s.newCounter rest

/-- A `guess_extension` with no entry for any type (every lookup misses). -/
def guessExtNone : String → Option String := fun _ => none

/-- A WMF-typed image whose extension lookup will miss. -/
def wmfCtImage : DocxImage := ⟨some "image/x-wmf", [7]⟩

/-- A `guess_extension` table answering `.jpeg` for every type. -/
def guessExtJpg : String → Option String := fun _ => some ".jpeg"

/-- A regular image and a WMF-typed image for the C9 witness run. -/
def imgA : DocxImage := ⟨some "image/jpeg", [1]⟩

def imgB : DocxImage := ⟨some "image/x-wmf", [2]⟩

def c9pairs : List (DocxImage × ProcOutcome) :=
  [(imgA, .completed 0 true), (imgB, .completed 0 true)]

end Markitdown

namespace Markitdown

/-- C4 counterexample input: an object whose filename ends in `.emf` with no
declared content type and a small size is NOT classified as a formula. -/
theorem c4_counterexample :
    is_likely_formula ".emf" none (some 10) = false := by
  decide

/-- C4 (amended): the classifier returns `likely-formula` exactly when the
extension is `.wmf` (rule 1 tests only `.wmf`, not `.emf`) or the content
type mentions `wmf`/`emf`; in every other case — including `.emf`-extension
objects with no such content type, and regardless of the 100 KiB size rule,
whose two branches both yield `False` — the verdict is not-a-formula. -/
theorem c4_classifier_table (suffix : String) (contentType : Option String)
    (statSize : Option Nat) :
    is_likely_formula suffix contentType statSize =
      (decide (strLower suffix = ".wmf") || ctMentionsVector contentType) := by
  unfold is_likely_formula
  by_cases h1 : strLower suffix = ".wmf"
  · simp [h1]
  · by_cases h2 : ctMentionsVector contentType
    · simp [h1, h2]
    · simp [h1, h2]
      cases statSize with
      | none => rfl
      | some sz => by_cases h3 : sz > 100 * 1024 <;> simp [h3]

/-- C6: the transcoder either returns the input path unchanged (non-legacy
format no-op, process missing, timeout, other exception, non-zero exit, or
absent output file), or — only when the suffix is a legacy vector format and
the process exited 0 with the output file present — the fresh PNG path.
In particular a result different from the input path implies conversion
succeeded, and no failure is ever surfaced as an error. -/
theorem c6_transcoder_fallback (path suffix tempPng : String) (proc : ProcOutcome) :
    convert_to_png_if_needed path suffix tempPng proc = path ∨
      (legacyVectorSuffix suffix = true ∧ proc = .completed 0 true ∧
        convert_to_png_if_needed path suffix tempPng proc = tempPng) := by
  unfold convert_to_png_if_needed
  by_cases hs : legacyVectorSuffix suffix
  · cases proc with
    | completed rc outExists =>
        by_cases hrc : rc = 0 ∧ outExists = true
        · right
          exact ⟨hs, by rw [hrc.1, hrc.2], by simp [hs, hrc]⟩
        · left; simp [hs, hrc]
    | procMissing => left; simp [hs]
    | timedOut => left; simp [hs]
    | otherError => left; simp [hs]
  · left; simp [hs]


/-- Rows of three side-by-side pasted grids of uniform width `w` all have
width `3 * w`. -/
theorem mergeRows_width (w : Nat) :
    ∀ (l0 l1 l2 : List (List Nat)),
      (∀ r ∈ l0, r.length = w) → (∀ r ∈ l1, r.length = w) → (∀ r ∈ l2, r.length = w) →
      ∀ r ∈ List.zipWith (fun r01 r2 => r01 ++ r2)
          (List.zipWith (fun r0 r1 => r0 ++ r1) l0 l1) l2, r.length = 3 * w := by
  intro l0
  induction l0 with
  | nil => intro l1 l2 _ _ _ r hr; simp at hr
  | cons a t ih =>
      intro l1 l2 h0 h1 h2 r hr
      cases l1 with
      | nil => simp at hr
      | cons b t1 =>
          cases l2 with
          | nil => simp at hr
          | cons c t2 =>
              simp only [List.zipWith_cons_cons, List.mem_cons] at hr
              rcases hr with rfl | hr
              · have ha := h0 a (by simp)
                have hb := h1 b (by simp)
                have hc := h2 c (by simp)
                simp [ha, hb, hc]; ring
              · exact ih t1 t2 (fun r h => h0 r (by simp [h]))
                  (fun r h => h1 r (by simp [h])) (fun r h => h2 r (by simp [h])) r hr

/-- C5: on any nonempty `n`-frame animation whose frames all have height `h`
and width `w`, the extractor selects exactly frames `0`,
`n/2 - 1` if `n` even else `n/2`, and `n - 1`, and composites them into one
raster of height `h` and width `3 * w`. -/
theorem c5_frame_extractor (pil : Bool) (frames : List Frame) (w h : Nat)
    (hpil : pil = true) (hne : frames ≠ [])
    (hdim : ∀ f ∈ frames, f.rows.length = h ∧ ∀ r ∈ f.rows, r.length = w) :
    ∃ m, split_and_merge_gif pil frames =
        some (m, 0, middle_index frames.length, frames.length - 1) ∧
      middle_index frames.length =
        (if frames.length % 2 = 0 then frames.length / 2 - 1 else frames.length / 2) ∧
      m.rows.length = h ∧ ∀ r ∈ m.rows, r.length = 3 * w := by
  subst hpil
  cases frames with
  | nil => exact absurd rfl hne
  | cons f rest =>
      set fs := f :: rest with hfs
      have hn : 0 < fs.length := by simp [hfs]
      have hmidlt : middle_index fs.length < fs.length := by
        unfold middle_index
        split <;> omega
      have hlast : fs.length - 1 < fs.length := by omega
      have hmem0 : fs.getD 0 f ∈ fs := by
        rw [List.getD_eq_getElem fs f hn]; exact List.getElem_mem _
      have hmemMid : fs.getD (middle_index fs.length) f ∈ fs := by
        rw [List.getD_eq_getElem fs f hmidlt]; exact List.getElem_mem _
      have hmemLast : fs.getD (fs.length - 1) f ∈ fs := by
        rw [List.getD_eq_getElem fs f hlast]; exact List.getElem_mem _
      refine ⟨mergeFrames (fs.getD 0 f) (fs.getD (middle_index fs.length) f)
        (fs.getD (fs.length - 1) f), ?_, rfl, ?_, ?_⟩
      · simp [split_and_merge_gif, hfs]
      · obtain ⟨h0, _⟩ := hdim _ hmem0
        obtain ⟨h1, _⟩ := hdim _ hmemMid
        obtain ⟨h2, _⟩ := hdim _ hmemLast
        simp only [mergeFrames, List.length_zipWith]
        rw [h0, h1, h2]
        omega
      · obtain ⟨_, w0⟩ := hdim _ hmem0
        obtain ⟨_, w1⟩ := hdim _ hmemMid
        obtain ⟨_, w2⟩ := hdim _ hmemLast
        exact mergeRows_width w _ _ _ w0 w1 w2

/-- C5 witness: the 5-frame input selects frames `{0, 2, 4}` and the 4-frame
input selects `{0, 1, 3}`; on the concrete `gif5` (frames 1×2) the composite
is 1 pixel high and `3 * 2` wide. -/
theorem c5_frame_extractor_witness :
    middle_index 5 = 2 ∧ middle_index 4 = 1 ∧
    (∃ m, split_and_merge_gif true gif5 =
        some (m, 0, middle_index gif5.length, gif5.length - 1) ∧
      middle_index gif5.length =
        (if gif5.length % 2 = 0 then gif5.length / 2 - 1 else gif5.length / 2) ∧
      m.rows.length = 1 ∧ ∀ r ∈ m.rows, r.length = 3 * 2) ∧
    (∃ m, split_and_merge_gif true gif4 =
        some (m, 0, middle_index gif4.length, gif4.length - 1) ∧
      middle_index gif4.length =
        (if gif4.length % 2 = 0 then gif4.length / 2 - 1 else gif4.length / 2) ∧
      m.rows.length = 1 ∧ ∀ r ∈ m.rows, r.length = 3 * 2) :=
  ⟨by decide, by decide,
    c5_frame_extractor true gif5 2 1 rfl (by decide) (by decide),
    c5_frame_extractor true gif4 2 1 rfl (by decide) (by decide)⟩


/-- C1: evaluating the resolver pass on a marker wrapping the balanced
payload `\frac\x7ba\x7d\x7bb\x7d(x)` (the spec's round-trip example).
The depth-counting helper extracts the payload correctly, but `re.sub`
replaces only the matched opening sequence, so the pass leaves the payload
text and the terminating `)` in place: the output is the payload twice
followed by `)`, not the payload alone as the claim requires. -/
theorem c1_latex_marker_leftover :
    resolveLatexMarkers (latexMarkerOpen ++ "\\frac{a}{b}(x)".data ++ [')']) =
      "\\frac{a}{b}(x)".data ++ "\\frac{a}{b}(x)".data ++ [')'] ∧
    resolveLatexMarkers (latexMarkerOpen ++ "\\frac{a}{b}(x)".data ++ [')']) ≠
      "\\frac{a}{b}(x)".data := by
  constructor
  · decide
  · decide


theorem dropWhile_ws_idem (l : List Nat) :
    List.dropWhile wsByte (List.dropWhile wsByte l) = List.dropWhile wsByte l := by
  induction l with
  | nil => rfl
  | cons b t ih =>
      by_cases h : wsByte b = true
      · rw [List.dropWhile_cons, if_pos h, ih]
      · rw [List.dropWhile_cons, if_neg h, List.dropWhile_cons, if_neg h]

theorem head_dropWhile_not_ws : ∀ (l : List Nat) (c : Nat),
    (List.dropWhile wsByte l).head? = some c → wsByte c = false := by
  intro l
  induction l with
  | nil => intro c h; simp at h
  | cons b t ih =>
      intro c h
      by_cases hb : wsByte b = true
      · rw [List.dropWhile_cons, if_pos hb] at h
        exact ih c h
      · rw [List.dropWhile_cons, if_neg hb] at h
        simp only [List.head?_cons, Option.some.injEq] at h
        rw [← h]
        simpa using hb

theorem getLast_dropWhile_ws (l : List Nat) (h : List.dropWhile wsByte l ≠ []) :
    (List.dropWhile wsByte l).getLast? = l.getLast? := by
  induction l with
  | nil => simp at h
  | cons b t ih =>
      by_cases hb : wsByte b = true
      · rw [List.dropWhile_cons, if_pos hb] at h ⊢
        have ht : t ≠ [] := by
          intro hcon
          rw [hcon] at h
          simp at h
        rw [ih h]
        cases t with
        | nil => exact absurd rfl ht
        | cons c t2 => rw [List.getLast?_cons_cons]
      · rw [List.dropWhile_cons, if_neg hb]

theorem dropWhile_ws_eq_self_of_head (x : List Nat)
    (h : ∀ c, x.head? = some c → wsByte c = false) :
    List.dropWhile wsByte x = x := by
  cases x with
  | nil => rfl
  | cons b t => rw [List.dropWhile_cons, if_neg (by simp [h b rfl])]

/-- Python's `str.strip()` is idempotent: a stripped string has no leading or
trailing whitespace left. -/
theorem pyStrip_idem (l : List Nat) : pyStrip (pyStrip l) = pyStrip l := by
  unfold pyStrip
  by_cases hw : List.dropWhile wsByte (List.dropWhile wsByte l).reverse = []
  · rw [hw]
    simp
  · have h1 : List.dropWhile wsByte
        (List.dropWhile wsByte (List.dropWhile wsByte l).reverse).reverse =
        (List.dropWhile wsByte (List.dropWhile wsByte l).reverse).reverse := by
      apply dropWhile_ws_eq_self_of_head
      intro d hd
      rw [List.head?_reverse] at hd
      rw [getLast_dropWhile_ws _ hw, List.getLast?_reverse] at hd
      exact head_dropWhile_not_ws l d hd
    rw [h1, List.reverse_reverse, dropWhile_ws_idem]

/-- Without a configured client, recognition fails immediately: no key, no
request, one more failure counted. -/
theorem recognize_no_client (cfg : OcrConfig) (client : Nat → Option (List Nat))
    (st : OcrState) (sub : Submission) (h : cfg.hasClient = false) :
    _recognize_formula cfg client st sub =
      ⟨none, { st with failCount := st.failCount + 1 }, none, none, none⟩ := by
  unfold _recognize_formula
  rw [if_pos (by simp [h])]

/-- A cache hit returns the stored value without a client call and leaves
the cache and the call counter unchanged. -/
theorem recognize_cache_hit (cfg : OcrConfig) (client : Nat → Option (List Nat))
    (st : OcrState) (sub : Submission) (v : List Nat)
    (hc : cfg.hasClient = true) (hcache : cfg.cacheEnabled = true)
    (hr : sub.hashReadable = true)
    (hl : lookupCache st.cache (cfg.md5 sub.origBytes) = some v) :
    _recognize_formula cfg client st sub =
      ⟨some v, { st with cachedCount := st.cachedCount + 1 },
        some (cfg.md5 sub.origBytes), some sub.origBytes, none⟩ := by
  unfold _recognize_formula
  rw [if_neg (by simp [hc]), if_pos (by simp [hcache, hr]), hl]

/-- A cache miss with caching enabled proceeds to the client-call step with
the computed key. -/
theorem recognize_cache_miss (cfg : OcrConfig) (client : Nat → Option (List Nat))
    (st : OcrState) (sub : Submission)
    (hc : cfg.hasClient = true) (hcache : cfg.cacheEnabled = true)
    (hr : sub.hashReadable = true)
    (hl : lookupCache st.cache (cfg.md5 sub.origBytes) = none) :
    _recognize_formula cfg client st sub =
      recogClientCall client st sub (some (cfg.md5 sub.origBytes))
        (some sub.origBytes) := by
  unfold _recognize_formula
  rw [if_neg (by simp [hc]), if_pos (by simp [hcache, hr]), hl]

/-- With no key available (caching off or unreadable file) recognition goes
straight to the client-call step. -/
theorem recognize_no_key (cfg : OcrConfig) (client : Nat → Option (List Nat))
    (st : OcrState) (sub : Submission)
    (hc : cfg.hasClient = true)
    (h2 : ¬ (cfg.cacheEnabled = true ∧ sub.hashReadable = true)) :
    _recognize_formula cfg client st sub = recogClientCall client st sub none none := by
  unfold _recognize_formula
  rw [if_neg (by simp [hc]), if_neg h2]

theorem recogCall_unreadable (client : Nat → Option (List Nat)) (st : OcrState)
    (sub : Submission) (keyUsed hashedFrom : Option (List Nat))
    (hsr : sub.sendReadable = false) :
    recogClientCall client st sub keyUsed hashedFrom =
      ⟨none, { st with failCount := st.failCount + 1 }, keyUsed, hashedFrom, none⟩ := by
  simp only [recogClientCall]
  rw [if_pos (by simp [hsr])]

theorem recogCall_clientFail (client : Nat → Option (List Nat)) (st : OcrState)
    (sub : Submission) (keyUsed hashedFrom : Option (List Nat))
    (hsr : sub.sendReadable = true) (hcl : client st.calls = none) :
    recogClientCall client st sub keyUsed hashedFrom =
      ⟨none, { st with calls := st.calls + 1, failCount := st.failCount + 1 },
        keyUsed, hashedFrom, some (postConvBytes sub)⟩ := by
  simp only [recogClientCall]
  rw [if_neg (by simp [hsr]), hcl]

theorem recogCall_empty (client : Nat → Option (List Nat)) (st : OcrState)
    (sub : Submission) (keyUsed hashedFrom : Option (List Nat)) (resp : List Nat)
    (hsr : sub.sendReadable = true) (hcl : client st.calls = some resp)
    (hemp : pyStrip resp = []) :
    recogClientCall client st sub keyUsed hashedFrom =
      ⟨none, { st with calls := st.calls + 1, failCount := st.failCount + 1 },
        keyUsed, hashedFrom, some (postConvBytes sub)⟩ := by
  simp only [recogClientCall]
  rw [if_neg (by simp [hsr]), hcl]
  simp [hemp]

theorem recogCall_ok (client : Nat → Option (List Nat)) (st : OcrState)
    (sub : Submission) (k : List Nat) (hashedFrom : Option (List Nat)) (resp : List Nat)
    (hsr : sub.sendReadable = true) (hcl : client st.calls = some resp)
    (hne : pyStrip resp ≠ []) :
    recogClientCall client st sub (some k) hashedFrom =
      ⟨some (pyStrip resp),
        { st with
          calls := st.calls + 1
          okCount := st.okCount + 1
          cache := (k, pyStrip resp) :: st.cache },
        some k, hashedFrom, some (postConvBytes sub)⟩ := by
  simp only [recogClientCall]
  rw [if_neg (by simp [hsr]), hcl]
  simp [hne]

theorem recogCall_ok_nokey (client : Nat → Option (List Nat)) (st : OcrState)
    (sub : Submission) (hashedFrom : Option (List Nat)) (resp : List Nat)
    (hsr : sub.sendReadable = true) (hcl : client st.calls = some resp)
    (hne : pyStrip resp ≠ []) :
    recogClientCall client st sub none hashedFrom =
      ⟨some (pyStrip resp),
        { st with calls := st.calls + 1, okCount := st.okCount + 1 },
        none, hashedFrom, some (postConvBytes sub)⟩ := by
  simp only [recogClientCall]
  rw [if_neg (by simp [hsr]), hcl]
  simp [hne]

/-- A successful recognition with caching enabled leaves the digest of the
submission's raw bytes bound to the returned result. -/
theorem recognize_success_stores (cfg : OcrConfig) (client : Nat → Option (List Nat))
    (st : OcrState) (sub : Submission) (l : List Nat)
    (hcache : cfg.cacheEnabled = true) (hr : sub.hashReadable = true)
    (hs : (_recognize_formula cfg client st sub).latexOut = some l) :
    lookupCache (_recognize_formula cfg client st sub).state.cache
      (cfg.md5 sub.origBytes) = some l := by
  by_cases hc : cfg.hasClient = true
  · cases hl : lookupCache st.cache (cfg.md5 sub.origBytes) with
    | some v =>
        rw [recognize_cache_hit cfg client st sub v hc hcache hr hl] at hs ⊢
        have hv : v = l := by simpa using hs
        subst hv
        exact hl
    | none =>
        rw [recognize_cache_miss cfg client st sub hc hcache hr hl] at hs ⊢
        by_cases hsr : sub.sendReadable = true
        · cases hcl : client st.calls with
          | none =>
              rw [recogCall_clientFail client st sub _ _ hsr hcl] at hs
              exact Option.noConfusion hs
          | some resp =>
              by_cases hemp : pyStrip resp = []
              · rw [recogCall_empty client st sub _ _ resp hsr hcl hemp] at hs
                exact Option.noConfusion hs
              · rw [recogCall_ok client st sub (cfg.md5 sub.origBytes) _ resp hsr hcl hemp]
                  at hs ⊢
                have hv : pyStrip resp = l := by simpa using hs
                show lookupCache ((cfg.md5 sub.origBytes, pyStrip resp) :: st.cache)
                  (cfg.md5 sub.origBytes) = some l
                simp [lookupCache, hv]
        · have hsrf : sub.sendReadable = false := by
            revert hsr
            cases sub.sendReadable <;> simp
          rw [recogCall_unreadable client st sub _ _ hsrf] at hs
          exact Option.noConfusion hs
  · have hcf : cfg.hasClient = false := by
      revert hc
      cases cfg.hasClient <;> simp
    rw [recognize_no_client cfg client st sub hcf] at hs
    exact Option.noConfusion hs

/-- One client-call step never removes or changes an existing cache
binding: a store only happens for the key the step itself missed on. -/
theorem clientCall_preserves_binding (client : Nat → Option (List Nat))
    (st : OcrState) (sub : Submission) (keyUsed hashedFrom : Option (List Nat))
    (k v : List Nat) (h : lookupCache st.cache k = some v)
    (hkey : ∀ k2, keyUsed = some k2 → k2 ≠ k) :
    lookupCache (recogClientCall client st sub keyUsed hashedFrom).state.cache k =
      some v := by
  by_cases hsr : sub.sendReadable = true
  · cases hcl : client st.calls with
    | none =>
        rw [recogCall_clientFail client st sub keyUsed hashedFrom hsr hcl]
        exact h
    | some resp =>
        by_cases hemp : pyStrip resp = []
        · rw [recogCall_empty client st sub keyUsed hashedFrom resp hsr hcl hemp]
          exact h
        · cases keyUsed with
          | none =>
              rw [recogCall_ok_nokey client st sub hashedFrom resp hsr hcl hemp]
              exact h
          | some k2 =>
              rw [recogCall_ok client st sub k2 hashedFrom resp hsr hcl hemp]
              show lookupCache ((k2, pyStrip resp) :: st.cache) k = some v
              simp only [lookupCache]
              rw [if_neg (hkey k2 rfl)]
              exact h
  · have hsrf : sub.sendReadable = false := by
      revert hsr
      cases sub.sendReadable <;> simp
    rw [recogCall_unreadable client st sub keyUsed hashedFrom hsrf]
    exact h

/-- One recognition step preserves every existing cache binding exactly:
a submission whose key is already bound hits the cache and stores nothing,
and a store after a miss is for a key that was not bound. -/
theorem recognize_preserves_binding (cfg : OcrConfig) (client : Nat → Option (List Nat))
    (st : OcrState) (sub : Submission) (k v : List Nat)
    (h : lookupCache st.cache k = some v) :
    lookupCache (_recognize_formula cfg client st sub).state.cache k = some v := by
  by_cases hc : cfg.hasClient = true
  · by_cases h2 : cfg.cacheEnabled = true ∧ sub.hashReadable = true
    · cases hl : lookupCache st.cache (cfg.md5 sub.origBytes) with
      | some w =>
          rw [recognize_cache_hit cfg client st sub w hc h2.1 h2.2 hl]
          exact h
      | none =>
          rw [recognize_cache_miss cfg client st sub hc h2.1 h2.2 hl]
          refine clientCall_preserves_binding client st sub _ _ k v h ?_
          intro k2 hk2 hcon
          rw [Option.some.inj hk2, hcon, h] at hl
          exact Option.noConfusion hl
    · rw [recognize_no_key cfg client st sub hc h2]
      exact clientCall_preserves_binding client st sub none none k v h
        (fun k2 hk2 => Option.noConfusion hk2)
  · have hcf : cfg.hasClient = false := by
      revert hc
      cases cfg.hasClient <;> simp
    rw [recognize_no_client cfg client st sub hcf]
    exact h

/-- Cache bindings persist across any submission sequence. -/
theorem run_preserves_binding (cfg : OcrConfig) (client : Nat → Option (List Nat))
    (k v : List Nat) : ∀ (subs : List Submission) (st : OcrState),
      lookupCache st.cache k = some v →
      lookupCache (runRecognitions cfg client st subs).cache k = some v := by
  intro subs
  induction subs with
  | nil => intro st h; exact h
  | cons sub rest ih =>
      intro st h
      exact ih _ (recognize_preserves_binding cfg client st sub k v h)

/-- Once the digest of content `b` is bound in the cache, no later
submission makes another client call for `b`: submissions of `b` (readable
for hashing) hit the cache, and other submissions do not count. -/
theorem trace_no_call_for_bound (cfg : OcrConfig) (client : Nat → Option (List Nat))
    (b : List Nat) (hcache : cfg.cacheEnabled = true) :
    ∀ (subs : List Submission) (st : OcrState) (v : List Nat),
      (∀ sub ∈ subs, sub.origBytes = b → sub.hashReadable = true) →
      lookupCache st.cache (cfg.md5 b) = some v →
      List.countP (successfulCallFor b) (runTrace cfg client st subs) = 0 := by
  intro subs
  induction subs with
  | nil => intro st v _ _; rfl
  | cons sub rest ih =>
      intro st v hread hbind
      rw [show runTrace cfg client st (sub :: rest) =
          (sub, _recognize_formula cfg client st sub) ::
            runTrace cfg client (_recognize_formula cfg client st sub).state rest from rfl]
      rw [List.countP_cons]
      have hnot : successfulCallFor b (sub, _recognize_formula cfg client st sub) = false := by
        by_cases hbyte : sub.origBytes = b
        · by_cases hc : cfg.hasClient = true
          · have hhit := recognize_cache_hit cfg client st sub v hc hcache
              (hread sub (by simp) hbyte) (by rw [hbyte]; exact hbind)
            unfold successfulCallFor
            rw [hhit]
            simp
          · have hcf : cfg.hasClient = false := by
              revert hc
              cases cfg.hasClient <;> simp
            unfold successfulCallFor
            rw [recognize_no_client cfg client st sub hcf]
            simp
        · unfold successfulCallFor
          simp [hbyte]
      rw [hnot]
      simp only [Bool.false_eq_true, if_false, Nat.add_zero]
      exact ih _ v (fun sx hx hbx => hread sx (by simp [hx]) hbx)
        (recognize_preserves_binding cfg client st sub _ v hbind)

/-- From any starting state, a submission sequence makes at most one
successful client call per distinct content (among submissions readable for
hashing). -/
theorem trace_at_most_one_call (cfg : OcrConfig) (client : Nat → Option (List Nat))
    (b : List Nat) (hcache : cfg.cacheEnabled = true) :
    ∀ (subs : List Submission) (st : OcrState),
      (∀ sub ∈ subs, sub.origBytes = b → sub.hashReadable = true) →
      List.countP (successfulCallFor b) (runTrace cfg client st subs) ≤ 1 := by
  intro subs
  induction subs with
  | nil =>
      intro st _
      simp [runTrace]
  | cons sub rest ih =>
      intro st hread
      rw [show runTrace cfg client st (sub :: rest) =
          (sub, _recognize_formula cfg client st sub) ::
            runTrace cfg client (_recognize_formula cfg client st sub).state rest from rfl]
      rw [List.countP_cons]
      by_cases hp : successfulCallFor b (sub, _recognize_formula cfg client st sub) = true
      · have hparts := hp
        simp only [successfulCallFor, Bool.and_eq_true, beq_iff_eq,
          Option.isSome_iff_exists] at hparts
        obtain ⟨⟨hbyte, _⟩, l, hl⟩ := hparts
        have hstore := recognize_success_stores cfg client st sub l hcache
          (hread sub (by simp) hbyte) hl
        rw [hbyte] at hstore
        have hzero := trace_no_call_for_bound cfg client b hcache rest
          (_recognize_formula cfg client st sub).state l
          (fun sx hx hbx => hread sx (by simp [hx]) hbx) hstore
        rw [hzero, hp]
        simp
      · have hpf : successfulCallFor b (sub, _recognize_formula cfg client st sub) = false := by
          revert hp
          cases successfulCallFor b (sub, _recognize_formula cfg client st sub) <;> simp
        rw [hpf]
        simp only [Bool.false_eq_true, if_false, Nat.add_zero]
        exact ih _ (fun sx hx hbx => hread sx (by simp [hx]) hbx)

/-- C2 (amended): once one submission's recognition has succeeded, every
later submission with identical raw bytes — after arbitrarily many
intervening submissions of any content — is answered from the cache with
the same result and without a new client call (no request is built, the
call counter is untouched, only the cached-hits statistic moves); and
consequently a whole document run, starting from the empty per-document
cache, makes at most one successful client call per distinct content
(among submissions whose saved file is readable for hashing). -/
theorem c2_cached_after_success (cfg : OcrConfig) (client : Nat → Option (List Nat))
    (hcache : cfg.cacheEnabled = true) :
    (∀ (st : OcrState) (sub1 : Submission) (mid : List Submission) (sub2 : Submission)
        (l : List Nat), sub1.hashReadable = true → sub2.hashReadable = true →
      sub2.origBytes = sub1.origBytes →
      (_recognize_formula cfg client st sub1).latexOut = some l →
      _recognize_formula cfg client
          (runRecognitions cfg client (_recognize_formula cfg client st sub1).state mid)
          sub2 =
        ⟨some l,
          { runRecognitions cfg client (_recognize_formula cfg client st sub1).state mid with
              cachedCount := (runRecognitions cfg client
                (_recognize_formula cfg client st sub1).state mid).cachedCount + 1 },
          some (cfg.md5 sub2.origBytes), some sub2.origBytes, none⟩) ∧
    (∀ (subs : List Submission) (b : List Nat),
      (∀ sub ∈ subs, sub.origBytes = b → sub.hashReadable = true) →
      List.countP (successfulCallFor b) (runTrace cfg client initOcrState subs) ≤ 1) := by
  constructor
  · intro st sub1 mid sub2 l hr1 hr2 hbytes hs
    have hc : cfg.hasClient = true := by
      by_contra hcon
      have hcf : cfg.hasClient = false := by
        revert hcon
        cases cfg.hasClient <;> simp
      rw [recognize_no_client cfg client st sub1 hcf] at hs
      exact Option.noConfusion hs
    have hstore := recognize_success_stores cfg client st sub1 l hcache hr1 hs
    have hbind := run_preserves_binding cfg client (cfg.md5 sub1.origBytes) l mid _ hstore
    exact recognize_cache_hit cfg client _ sub2 l hc hcache hr2
      (by rw [hbytes]; exact hbind)
  · intro subs b hread
    exact trace_at_most_one_call cfg client b hcache subs initOcrState hread

/-- C2 counterexample: two submissions with identical raw bytes whose first
recognition fails (the client answers a blank string, empty after
stripping) trigger two client calls — a failure is not cached, so the
second identical submission is not served from the cache. -/
theorem c2_counterexample :
    (runRecognitions cexCfg blankClient initOcrState [subA, subA]).calls = 2 ∧
    ¬ (runRecognitions cexCfg blankClient initOcrState [subA, subA]).calls ≤ 1 := by
  constructor
  · decide
  · decide

/-- C2 witness: with the concrete always-`"x"` client the first submission
of `subA` succeeds; after an intervening submission of different content
(`subConv`), a later identical submission is served from the cache with no
further call, and the three-submission run makes at most one successful
client call for `subA`'s content. -/
theorem c2_cached_after_success_witness :
    _recognize_formula cexCfg oneClient
        (runRecognitions cexCfg oneClient
          (_recognize_formula cexCfg oneClient initOcrState subA).state [subConv]) subA =
      ⟨some [120],
        { runRecognitions cexCfg oneClient
            (_recognize_formula cexCfg oneClient initOcrState subA).state [subConv] with
            cachedCount := (runRecognitions cexCfg oneClient
              (_recognize_formula cexCfg oneClient initOcrState subA).state
                [subConv]).cachedCount + 1 },
        some (cexCfg.md5 subA.origBytes), some subA.origBytes, none⟩ ∧
    List.countP (successfulCallFor [1, 2, 3])
      (runTrace cexCfg oneClient initOcrState [subA, subA, subConv]) ≤ 1 :=
  ⟨(c2_cached_after_success cexCfg oneClient rfl).1 initOcrState subA [subConv] subA [120]
      rfl rfl rfl (by decide),
    (c2_cached_after_success cexCfg oneClient rfl).2 [subA, subA, subConv] [1, 2, 3]
      (by decide)⟩

/-- C3 (amended): whenever `_recognize_formula` computes a fingerprint
(client present, caching enabled, file readable), the cache key is the
digest of the raw bytes of the pre-transcode asset at `image_path` — the
hash is taken before `_convert_to_png_if_needed` runs — while the bytes
actually sent to the recognition service are the post-transcode bytes. -/
theorem c3_key_is_pre_transcode_digest (cfg : OcrConfig)
    (client : Nat → Option (List Nat)) (st : OcrState) (sub : Submission)
    (hc : cfg.hasClient = true) (hcache : cfg.cacheEnabled = true)
    (hr : sub.hashReadable = true) :
    (_recognize_formula cfg client st sub).usedKey = some (cfg.md5 sub.origBytes) ∧
    (_recognize_formula cfg client st sub).hashedBytes = some sub.origBytes ∧
    ∀ pb, (_recognize_formula cfg client st sub).sentBytes = some pb →
      pb = postConvBytes sub := by
  cases hl : lookupCache st.cache (cfg.md5 sub.origBytes) with
  | some v =>
      rw [recognize_cache_hit cfg client st sub v hc hcache hr hl]
      exact ⟨rfl, rfl, fun pb hpb => Option.noConfusion hpb⟩
  | none =>
      rw [recognize_cache_miss cfg client st sub hc hcache hr hl]
      by_cases hsr : sub.sendReadable = true
      · cases hcl : client st.calls with
        | none =>
            rw [recogCall_clientFail client st sub _ _ hsr hcl]
            refine ⟨rfl, rfl, fun pb hpb => ?_⟩
            exact (Option.some.inj hpb).symm
        | some resp =>
            by_cases hemp : pyStrip resp = []
            · rw [recogCall_empty client st sub _ _ resp hsr hcl hemp]
              refine ⟨rfl, rfl, fun pb hpb => ?_⟩
              exact (Option.some.inj hpb).symm
            · rw [recogCall_ok client st sub (cfg.md5 sub.origBytes) _ resp hsr hcl hemp]
              refine ⟨rfl, rfl, fun pb hpb => ?_⟩
              exact (Option.some.inj hpb).symm
      · have hsrf : sub.sendReadable = false := by
          revert hsr
          cases sub.sendReadable <;> simp
        rw [recogCall_unreadable client st sub _ _ hsrf]
        exact ⟨rfl, rfl, fun pb hpb => Option.noConfusion hpb⟩

/-- C3 counterexample: a WMF submission whose transcoding succeeds and
changes the bytes (`[0]` on disk, `[1, 2]` after conversion).  The request
carries the post-transcode bytes, but the cache key is the digest of the
pre-transcode bytes — not the digest of the bytes actually sent, as the
claim requires. -/
theorem c3_counterexample :
    (_recognize_formula cexCfg oneClient initOcrState subConv).sentBytes = some [1, 2] ∧
    (_recognize_formula cexCfg oneClient initOcrState subConv).usedKey =
      some (cexCfg.md5 [0]) ∧
    (_recognize_formula cexCfg oneClient initOcrState subConv).usedKey ≠
      Option.map cexCfg.md5
        (_recognize_formula cexCfg oneClient initOcrState subConv).sentBytes := by
  refine ⟨by decide, by decide, by decide⟩

/-- C3 witness for the amended statement, on the same concrete run. -/
theorem c3_key_witness :
    cexCfg.hasClient = true ∧ cexCfg.cacheEnabled = true ∧ subConv.hashReadable = true ∧
    ((_recognize_formula cexCfg oneClient initOcrState subConv).usedKey =
        some (cexCfg.md5 subConv.origBytes) ∧
      (_recognize_formula cexCfg oneClient initOcrState subConv).hashedBytes =
        some subConv.origBytes ∧
      ∀ pb, (_recognize_formula cexCfg oneClient initOcrState subConv).sentBytes = some pb →
        pb = postConvBytes subConv) :=
  ⟨rfl, rfl, rfl,
    c3_key_is_pre_transcode_digest cexCfg oneClient initOcrState subConv rfl rfl rfl⟩

/-- C8: whenever recognition fails — no client configured, unreadable file,
service exception, or empty response all make `_recognize_formula` return
`None` — the writer's `__call__` returns the saved-image reference produced
by the base writer, exactly as a regular image; the model is a total
function, so no exception escapes to abort the conversion. -/
theorem c8_failure_falls_back (cfg : OcrConfig) (ocrFormulas : Bool)
    (client : Nat → Option (List Nat)) (st : OcrState) (m : MediaIn)
    (hfail : (_recognize_formula cfg client
        { st with
          totalImages := st.totalImages + 1
          formulaDetected := st.formulaDetected + 1 } m.sub).latexOut = none) :
    (writerCallWithLlm cfg ocrFormulas client st m).1 = m.savedSrc := by
  simp only [writerCallWithLlm]
  by_cases h1 : ocrFormulas = true
  · rw [if_neg (by simp [h1])]
    by_cases h2 : is_likely_formula m.savedSuffix (some (effContentType m.contentType))
        m.statSize = true
    · rw [if_neg (by simp [h2])]
      rw [hfail]
    · rw [if_pos (by simp [h2])]
  · rw [if_pos (by simp [h1])]

/-- C8 witness: a `.wmf`-classified image with no configured client falls
back to the saved reference `[5, 5]`. -/
theorem c8_failure_falls_back_witness :
    (_recognize_formula noClientCfg blankClient
        { initOcrState with
          totalImages := initOcrState.totalImages + 1
          formulaDetected := initOcrState.formulaDetected + 1 } mediaWmf.sub).latexOut =
      none ∧
    (writerCallWithLlm noClientCfg true blankClient initOcrState mediaWmf).1 =
      mediaWmf.savedSrc :=
  ⟨by decide,
    c8_failure_falls_back noClientCfg true blankClient initOcrState mediaWmf (by decide)⟩

/-- One client-call step preserves the cache-value invariant. -/
theorem clientCall_preserves_cacheOk (client : Nat → Option (List Nat))
    (st : OcrState) (sub : Submission) (keyUsed hashedFrom : Option (List Nat))
    (h : cacheValuesOk st) :
    cacheValuesOk (recogClientCall client st sub keyUsed hashedFrom).state := by
  by_cases hsr : sub.sendReadable = true
  · cases hcl : client st.calls with
    | none =>
        rw [recogCall_clientFail client st sub keyUsed hashedFrom hsr hcl]
        exact h
    | some resp =>
        by_cases hemp : pyStrip resp = []
        · rw [recogCall_empty client st sub keyUsed hashedFrom resp hsr hcl hemp]
          exact h
        · cases keyUsed with
          | none =>
              rw [recogCall_ok_nokey client st sub hashedFrom resp hsr hcl hemp]
              exact h
          | some k =>
              rw [recogCall_ok client st sub k hashedFrom resp hsr hcl hemp]
              intro kv hkv
              rcases List.mem_cons.mp hkv with hkv2 | hkv2
              · rw [hkv2]
                exact ⟨hemp, pyStrip_idem resp⟩
              · exact h kv hkv2
  · have hsrf : sub.sendReadable = false := by
      revert hsr
      cases sub.sendReadable <;> simp
    rw [recogCall_unreadable client st sub keyUsed hashedFrom hsrf]
    exact h

/-- One `_recognize_formula` step preserves the cache-value invariant. -/
theorem recognize_preserves_cacheOk (cfg : OcrConfig) (client : Nat → Option (List Nat))
    (st : OcrState) (sub : Submission) (h : cacheValuesOk st) :
    cacheValuesOk (_recognize_formula cfg client st sub).state := by
  by_cases hc : cfg.hasClient = true
  · by_cases h2 : cfg.cacheEnabled = true ∧ sub.hashReadable = true
    · cases hl : lookupCache st.cache (cfg.md5 sub.origBytes) with
      | some v =>
          rw [recognize_cache_hit cfg client st sub v hc h2.1 h2.2 hl]
          exact h
      | none =>
          rw [recognize_cache_miss cfg client st sub hc h2.1 h2.2 hl]
          exact clientCall_preserves_cacheOk client st sub _ _ h
    · rw [recognize_no_key cfg client st sub hc h2]
      exact clientCall_preserves_cacheOk client st sub _ _ h
  · have hcf : cfg.hasClient = false := by
      revert hc
      cases cfg.hasClient <;> simp
    rw [recognize_no_client cfg client st sub hcf]
    exact h

/-- The invariant holds along any submission sequence. -/
theorem runRecognitions_cacheOk (cfg : OcrConfig) (client : Nat → Option (List Nat)) :
    ∀ (subs : List Submission) (st : OcrState),
      cacheValuesOk st → cacheValuesOk (runRecognitions cfg client st subs) := by
  intro subs
  induction subs with
  | nil => intro st h; exact h
  | cons sub rest ih =>
      intro st h
      exact ih _ (recognize_preserves_cacheOk cfg client st sub h)

/-- C10: in any document run (the per-document cache starts empty), every
value ever stored in the formula-recognition cache is a non-empty byte
string with no leading or trailing whitespace (it is fixed by
`str.strip()`): a cache hit can never yield an empty or failure result. -/
theorem c10_cache_values (cfg : OcrConfig) (client : Nat → Option (List Nat))
    (subs : List Submission) :
    ∀ kv ∈ (runRecognitions cfg client initOcrState subs).cache,
      kv.2 ≠ [] ∧ pyStrip kv.2 = kv.2 :=
  runRecognitions_cacheOk cfg client subs initOcrState
    (by intro kv hkv; simp [initOcrState] at hkv)

/-- C10 witness: the client answers `" a "`; the stored value is the
stripped, non-empty `"a"` (byte 97). -/
theorem c10_cache_values_witness :
    (([1, 2, 3], [97]) ∈ (runRecognitions cexCfg spacedClient initOcrState [subA]).cache) ∧
    ([97] : List Nat) ≠ [] ∧ pyStrip [97] = [97] :=
  ⟨by decide,
    c10_cache_values cexCfg spacedClient [subA] ([1, 2, 3], [97]) (by decide)⟩


theorem decCharsAux_eq : ∀ (fuel n : Nat), n ≤ fuel →
    decCharsAux fuel n = ((Nat.digits 10 n).map Nat.digitChar).reverse := by
  intro fuel
  induction fuel with
  | zero =>
      intro n h
      have h0 : n = 0 := by omega
      subst h0
      simp [decCharsAux]
  | succ f ih =>
      intro n h
      by_cases h0 : n = 0
      · subst h0
        simp [decCharsAux]
      · rw [show decCharsAux (f + 1) n =
            decCharsAux f (n / 10) ++ [Nat.digitChar (n % 10)] from by
          simp [decCharsAux, h0]]
        have hdiv : n / 10 < n := Nat.div_lt_self (Nat.pos_of_ne_zero h0) (by norm_num)
        rw [ih (n / 10) (by omega)]
        rw [Nat.digits_def' (by norm_num : (1 : Nat) < 10) (Nat.pos_of_ne_zero h0)]
        simp

theorem decChars_eq (n : Nat) :
    decChars n = ((Nat.digits 10 n).map Nat.digitChar).reverse :=
  decCharsAux_eq n n le_rfl

theorem digitChar_isDigit : ∀ d < 10, (Nat.digitChar d).isDigit = true := by decide

theorem digitChar_toNat : ∀ d < 10, (Nat.digitChar d).toNat - 48 = d := by decide

theorem decChars_all_digit (n : Nat) : ∀ c ∈ decChars n, c.isDigit = true := by
  intro c hc
  rw [decChars_eq, List.mem_reverse] at hc
  obtain ⟨d, hd, rfl⟩ := List.mem_map.mp hc
  exact digitChar_isDigit d (Nat.digits_lt_base (by norm_num) hd)

theorem pad3_all_digit (n : Nat) : ∀ c ∈ pad3 n, c.isDigit = true := by
  intro c hc
  rw [pad3, List.mem_append] at hc
  rcases hc with hc | hc
  · rw [List.eq_of_mem_replicate hc]
    decide
  · exact decChars_all_digit n c hc

theorem valFold_digits : ∀ (ds : List Nat) (a : Nat), (∀ d ∈ ds, d < 10) →
    List.foldl (fun x c => x * 10 + (c.toNat - 48)) a ((ds.map Nat.digitChar).reverse) =
      a * 10 ^ ds.length + Nat.ofDigits 10 ds := by
  intro ds
  induction ds with
  | nil =>
      intro a _
      simp [Nat.ofDigits_nil]
  | cons d t ih =>
      intro a hd
      rw [List.map_cons, List.reverse_cons, List.foldl_append]
      rw [ih a (fun x hx => hd x (by simp [hx]))]
      simp only [List.foldl_cons, List.foldl_nil]
      rw [digitChar_toNat d (hd d (by simp))]
      rw [Nat.ofDigits_cons, List.length_cons, pow_succ]
      ring

/-- Padding `f"{n:03d}"` parses back to `n`: zero padding does not change the
value. -/
theorem valChars_pad3 (n : Nat) : valChars (pad3 n) = n := by
  unfold valChars pad3
  rw [List.foldl_append]
  have hz : List.foldl (fun x c => x * 10 + (c.toNat - 48)) 0
      (List.replicate (3 - (decChars n).length) '0') = 0 := by
    generalize 3 - (decChars n).length = k
    induction k with
    | zero => rfl
    | succ k ih =>
        rw [List.replicate_succ, List.foldl_cons]
        exact ih
  rw [hz, decChars_eq]
  rw [valFold_digits (Nat.digits 10 n) 0
    (fun d hd => Nat.digits_lt_base (by norm_num) hd)]
  simp [Nat.ofDigits_digits]

/-- Splitting a string into a digit run followed by a non-digit-headed tail
is unambiguous. -/
theorem digit_split : ∀ (d1 d2 t1 t2 : List Char),
    (∀ c ∈ d1, c.isDigit = true) → (∀ c ∈ d2, c.isDigit = true) →
    (∀ c, t1.head? = some c → c.isDigit = false) →
    (∀ c, t2.head? = some c → c.isDigit = false) →
    d1 ++ t1 = d2 ++ t2 → d1 = d2 ∧ t1 = t2 := by
  intro d1
  induction d1 with
  | nil =>
      intro d2 t1 t2 _ hd2 ht1 _ heq
      cases d2 with
      | nil => exact ⟨rfl, heq⟩
      | cons b d2t =>
          exfalso
          simp only [List.nil_append] at heq
          have hb : b.isDigit = true := hd2 b (by simp)
          have hb2 : b.isDigit = false := ht1 b (by rw [heq]; rfl)
          rw [hb] at hb2
          exact Bool.noConfusion hb2
  | cons a d1t ih =>
      intro d2 t1 t2 hd1 hd2 ht1 ht2 heq
      cases d2 with
      | nil =>
          exfalso
          simp only [List.nil_append] at heq
          have ha : a.isDigit = true := hd1 a (by simp)
          have ha2 : a.isDigit = false := ht2 a (by rw [← heq]; rfl)
          rw [ha] at ha2
          exact Bool.noConfusion ha2
      | cons b d2t =>
          simp only [List.cons_append, List.cons.injEq] at heq
          obtain ⟨rfl, heq2⟩ := heq
          obtain ⟨h1, h2⟩ := ih d2t t1 t2 (fun c hc => hd1 c (by simp [hc]))
            (fun c hc => hd2 c (by simp [hc])) ht1 ht2 heq2
          exact ⟨by rw [h1], h2⟩

/-- Two generated names with non-digit-headed extension parts agree only if
their counters (and extension parts) agree. -/
theorem imageName_inj (c1 c2 : Nat) (t1 t2 : List Char)
    (h1 : ∀ c, t1.head? = some c → c.isDigit = false)
    (h2 : ∀ c, t2.head? = some c → c.isDigit = false)
    (heq : imageName c1 t1 = imageName c2 t2) : c1 = c2 ∧ t1 = t2 := by
  unfold imageName at heq
  rw [List.append_assoc, List.append_assoc] at heq
  have heq2 : pad3 c1 ++ t1 = pad3 c2 ++ t2 := List.append_cancel_left heq
  obtain ⟨hp, ht⟩ := digit_split (pad3 c1) (pad3 c2) t1 t2 (pad3_all_digit c1)
    (pad3_all_digit c2) h1 h2 heq2
  refine ⟨?_, ht⟩
  have hv := congrArg valChars hp
  rwa [valChars_pad3, valChars_pad3] at hv

theorem docxWriterCall_newCounter (guessExt : String → Option String) (counter : Nat)
    (img : DocxImage) (magick : ProcOutcome) :
    (docxWriterCall guessExt counter img magick).newCounter = counter + 1 := by
  by_cases hw : isWmfEmf (effExt guessExt (effContentType img.contentType))
      (effContentType img.contentType) = true
  · cases magick with
    | completed rc ex =>
        by_cases hrc : rc = 0 ∧ ex = true
        · simp [docxWriterCall, hw, hrc]
        · simp [docxWriterCall, hw, hrc]
    | procMissing => simp [docxWriterCall, hw]
    | timedOut => simp [docxWriterCall, hw]
    | otherError => simp [docxWriterCall, hw]
  · simp [docxWriterCall, hw]

/-- Every file written by one call is named from the call's counter value,
with the resolved extension or `.png` as the tail. -/
theorem docxWriterCall_written (guessExt : String → Option String) (counter : Nat)
    (img : DocxImage) (magick : ProcOutcome) :
    ∀ f ∈ (docxWriterCall guessExt counter img magick).written,
      ∃ tail, f = imageName (counter + 1) tail ∧
        (tail = (effExt guessExt (effContentType img.contentType)).data ∨
          tail = ".png".data) := by
  intro f hf
  by_cases hw : isWmfEmf (effExt guessExt (effContentType img.contentType))
      (effContentType img.contentType) = true
  · cases magick with
    | completed rc ex =>
        by_cases hrc : rc = 0 ∧ ex = true
        · simp only [docxWriterCall, hw, if_true, hrc, and_self, List.mem_cons,
            List.not_mem_nil, or_false] at hf
          rcases hf with rfl | rfl
          · exact ⟨_, rfl, Or.inl rfl⟩
          · exact ⟨_, rfl, Or.inr rfl⟩
        · simp [docxWriterCall, hw, hrc] at hf
          rw [hf]
          exact ⟨_, rfl, Or.inl rfl⟩
    | procMissing =>
        simp [docxWriterCall, hw] at hf
        rw [hf]
        exact ⟨_, rfl, Or.inl rfl⟩
    | timedOut =>
        simp [docxWriterCall, hw] at hf
        rw [hf]
        exact ⟨_, rfl, Or.inl rfl⟩
    | otherError =>
        simp [docxWriterCall, hw] at hf
        rw [hf]
        exact ⟨_, rfl, Or.inl rfl⟩
  · simp [docxWriterCall, hw] at hf
    rw [hf]
    exact ⟨_, rfl, Or.inl rfl⟩

/-- The `k`-th run entry is the call on the `k`-th image with counter value
`c0 + k`, recorded with the assigned counter `c0 + k + 1`. -/
theorem docxWriterRun_entry (guessExt : String → Option String) :
    ∀ (pairs : List (DocxImage × ProcOutcome)) (c0 k : Nat) (entry : Nat × WriterStep),
      (docxWriterRun guessExt c0 pairs).get? k = some entry →
      ∃ img mg, pairs.get? k = some (img, mg) ∧
        entry = (c0 + k + 1, docxWriterCall guessExt (c0 + k) img mg) := by
  intro pairs
  induction pairs with
  | nil =>
      intro c0 k entry h
      simp [docxWriterRun] at h
  | cons p rest ih =>
      intro c0 k entry h
      obtain ⟨img, mg⟩ := p
      cases k with
      | zero =>
          simp only [docxWriterRun, List.get?_cons_zero, Option.some.injEq] at h
          refine ⟨img, mg, rfl, ?_⟩
          rw [← h, docxWriterCall_newCounter]
          rfl
      | succ k2 =>
          simp only [docxWriterRun, List.get?_cons_succ] at h
          rw [docxWriterCall_newCounter] at h
          obtain ⟨img2, mg2, hp, he⟩ := ih (c0 + 1) k2 entry h
          refine ⟨img2, mg2, by simpa using hp, ?_⟩
          rw [he]
          have harith : c0 + 1 + k2 = c0 + (k2 + 1) := by omega
          rw [harith]

/-- The resolved extension always starts with a dot when the `guessExt`
table produces dot-prefixed extensions (as `mimetypes.guess_extension`
does). -/
theorem effExt_head (guessExt : String → Option String)
    (hdot : ∀ ct e, guessExt ct = some e → e ≠ "" → e.data.head? = some '.')
    (ct : String) : (effExt guessExt ct).data.head? = some '.' := by
  unfold effExt
  cases hg : guessExt ct with
  | none => rfl
  | some e =>
      show (if e = "" then (".png" : String) else e).data.head? = some '.'
      by_cases he : e = ""
      · rw [if_pos he]
        rfl
      · rw [if_neg he]
        exact hdot ct e hg he

theorem dot_head_nondigit (t : List Char) (h : t.head? = some '.') :
    ∀ c, t.head? = some c → c.isDigit = false := by
  intro c hc
  rw [h] at hc
  rw [← Option.some.inj hc]
  decide

/-- C9 counterexample: a WMF-typed image whose extension lookup misses
resolves to extension `.png`; the temporary original and the ImageMagick
output then share the single name `image_001.png`, so the files written for
this one image are not pairwise distinct (and the source then unlinks that
shared path, deleting the converted file it is about to reference). -/
theorem c9_counterexample :
    (docxWriterCall guessExtNone 0 wmfCtImage (.completed 0 true)).written =
      [imageName 1 ".png".data, imageName 1 ".png".data] ∧
    ¬ (docxWriterCall guessExtNone 0 wmfCtImage (.completed 0 true)).written.Nodup := by
  constructor
  · decide
  · decide

/-- C9 (amended): provided the extension table yields dot-prefixed
extensions, (1) the counter value assigned to the `k`-th processed image is
`k` (1-based); (2) files written for distinct images never share a name;
(3) the files written for one image are pairwise distinct whenever its
resolved extension is not `.png` (a WMF/EMF-typed image resolving to
`.png` makes the temporary original and the converted output share one
name). -/
theorem c9_sequential_names (guessExt : String → Option String)
    (hdot : ∀ ct e, guessExt ct = some e → e ≠ "" → e.data.head? = some '.')
    (pairs : List (DocxImage × ProcOutcome)) :
    (∀ k entry, (docxWriterRun guessExt 0 pairs).get? k = some entry →
      entry.1 = k + 1) ∧
    (∀ i j e1 e2 f1 f2, i ≠ j →
      (docxWriterRun guessExt 0 pairs).get? i = some e1 →
      (docxWriterRun guessExt 0 pairs).get? j = some e2 →
      f1 ∈ e1.2.written → f2 ∈ e2.2.written → f1 ≠ f2) ∧
    (∀ counter img mg,
      effExt guessExt (effContentType img.contentType) ≠ ".png" →
      (docxWriterCall guessExt counter img mg).written.Nodup) := by
  refine ⟨?_, ?_, ?_⟩
  · intro k entry h
    obtain ⟨img, mg, _, he⟩ := docxWriterRun_entry guessExt pairs 0 k entry h
    rw [he]
    show 0 + k + 1 = k + 1
    omega
  · intro i j e1 e2 f1 f2 hij h1 h2 hf1 hf2 hcon
    obtain ⟨img1, mg1, _, he1⟩ := docxWriterRun_entry guessExt pairs 0 i e1 h1
    obtain ⟨img2, mg2, _, he2⟩ := docxWriterRun_entry guessExt pairs 0 j e2 h2
    rw [he1] at hf1
    rw [he2] at hf2
    obtain ⟨t1, hft1, ht1⟩ := docxWriterCall_written guessExt (0 + i) img1 mg1 f1 hf1
    obtain ⟨t2, hft2, ht2⟩ := docxWriterCall_written guessExt (0 + j) img2 mg2 f2 hf2
    have hd1 : ∀ c, t1.head? = some c → c.isDigit = false := by
      rcases ht1 with rfl | rfl
      · exact dot_head_nondigit _ (effExt_head guessExt hdot _)
      · exact dot_head_nondigit _ rfl
    have hd2 : ∀ c, t2.head? = some c → c.isDigit = false := by
      rcases ht2 with rfl | rfl
      · exact dot_head_nondigit _ (effExt_head guessExt hdot _)
      · exact dot_head_nondigit _ rfl
    rw [hft1, hft2] at hcon
    obtain ⟨hc, _⟩ := imageName_inj _ _ t1 t2 hd1 hd2 hcon
    omega
  · intro counter img mg hne
    by_cases hw : isWmfEmf (effExt guessExt (effContentType img.contentType))
        (effContentType img.contentType) = true
    · cases mg with
      | completed rc ex =>
          by_cases hrc : rc = 0 ∧ ex = true
          · simp only [docxWriterCall, hw, if_true, hrc, and_self]
            refine List.nodup_cons.mpr ⟨?_, List.nodup_singleton _⟩
            intro hmem
            simp only [List.mem_singleton] at hmem
            have hd1 := dot_head_nondigit
              ((effExt guessExt (effContentType img.contentType)).data)
              (effExt_head guessExt hdot _)
            have hd2 : ∀ c, (".png".data : List Char).head? = some c → c.isDigit = false :=
              dot_head_nondigit _ rfl
            obtain ⟨_, hteq⟩ := imageName_inj _ _ _ _ hd1 hd2 hmem
            apply hne
            have : (effExt guessExt (effContentType img.contentType)).data = ".png".data :=
              hteq
            cases heff : effExt guessExt (effContentType img.contentType) with
            | mk data =>
                rw [heff] at this
                simp only at this
                rw [this]
          · simp [docxWriterCall, hw, hrc]
      | procMissing => simp [docxWriterCall, hw]
      | timedOut => simp [docxWriterCall, hw]
      | otherError => simp [docxWriterCall, hw]
    · simp [docxWriterCall, hw]

/-- C9 witness: on the concrete two-image run (a JPEG and a WMF-typed image,
both conversions succeeding), the two entries carry counters 1 and 2, and
the JPEG's file does not collide with the WMF's converted output. -/
theorem c9_sequential_names_witness :
    imageName 1 ".jpeg".data ≠ imageName 2 ".png".data ∧
    (docxWriterRun guessExtJpg 0 c9pairs).get? 0 =
      some (1, docxWriterCall guessExtJpg 0 imgA (.completed 0 true)) ∧
    (docxWriterRun guessExtJpg 0 c9pairs).get? 1 =
      some (2, docxWriterCall guessExtJpg 1 imgB (.completed 0 true)) := by
  refine ⟨?_, by decide, by decide⟩
  exact (c9_sequential_names guessExtJpg
      (fun ct e h hne => by rw [← Option.some.inj h]; rfl) c9pairs).2.1
    0 1 (1, docxWriterCall guessExtJpg 0 imgA (.completed 0 true))
    (2, docxWriterCall guessExtJpg 1 imgB (.completed 0 true))
    (imageName 1 ".jpeg".data) (imageName 2 ".png".data)
    (by decide) (by decide) (by decide) (by decide) (by decide)

end Markitdown
